import Mathlib

/-!
Verification of the LibreChat client-side storage engine
(`client/src/utils/clientConfiguration.ts`, class `ClientStorage`).

The embedding is a faithful translation of the `ClientStorage` methods into
pure Lean functions over an explicit database state `DB` (IndexedDB object
stores become lists of records upserted by their `keyPath`; index traversal
becomes a stable sort by the index key).  The external primitives the source
calls — `CryptoJS.AES` (CBC/Pkcs7), `CryptoJS.SHA256`, `JSON.stringify` /
`JSON.parse` — are modelled as explicit parameters or as concrete injective
codecs, with their contracts (for example that decryption inverts
encryption) stated as hypotheses where a theorem needs them.
-/

namespace ClientStorage

/-- Sync status tag of a stored record (source: `syncStatus?: 'local' | 'synced' | 'conflict'`). -/
inductive SyncStatus where
  | localTag
  | synced
  | conflict
deriving DecidableEq, Repr

/-- On-disk representation of an encrypted sensitive-field bundle
(source interface `EncryptedData { data: string; iv: string; timestamp: number }`).
Ciphertext and IV are byte lists; note there is no checksum field. -/
structure EncryptedData where
  data : List Nat
  iv : List Nat
  timestamp : Nat
deriving DecidableEq, Repr

/-- Errors of the storage engine.  `keyUnavailable` and `malformedData` are the
failure modes of the source's `encrypt`/`decrypt` (`throw new Error('Encryption
key not available')`, and a UTF-8/`JSON.parse` failure respectively);
`engineFailure` models a rejected IndexedDB operation; `integrityError` and
`quotaExceeded` are the spec's §7 taxonomy names (`IntegrityError`,
`QuotaExceededError`), needed to state the claims about them. -/
inductive StorageError where
  | keyUnavailable
  | malformedData
  | engineFailure
  | integrityError
  | quotaExceeded
deriving DecidableEq, Repr

/-- Sensitive fields of a conversation, the argument of `encrypt` in
`storeConversation` (source: `{ promptPrefix, title }`). -/
structure ConvSensitive where
  promptPrefix : Option String
  title : Option String
deriving DecidableEq, Repr

/-- Sensitive fields of a message, the argument of `encrypt` in
`storeMessage` (source: `{ text, content }`). -/
structure MsgSensitive where
  text : Option String
  content : Option String
deriving DecidableEq, Repr

/-- Model of the serialization of one optional string field inside
`JSON.stringify`: a tag for presence, then a length-prefixed code list.
An injective encoding with a total inverse, which is the only property of
the JSON codec the source relies on. -/
def encodeOptStr : Option String → List Nat
  | none => [0]
  | some s => 1 :: s.data.length :: s.data.map Char.toNat

/-- Inverse of `encodeOptStr` on a byte stream: the decoded field and the
remaining bytes, or `none` for a malformed stream (models a
`JSON.parse` failure). -/
def decodeOptStr : List Nat → Option (Option String × List Nat)
  | 0 :: rest => some (none, rest)
  | 1 :: n :: rest =>
      if n ≤ rest.length then
        some (some (String.mk ((rest.take n).map Char.ofNat)), rest.drop n)
      else none
  | _ => none

/-- Serialization of the conversation-sensitive bundle (field order as in the
source object literal: `promptPrefix` then `title`). -/
def encodeConvPayload (p : ConvSensitive) : List Nat :=
  encodeOptStr p.promptPrefix ++ encodeOptStr p.title

/-- Parse of the conversation-sensitive bundle; `none` models a `JSON.parse`
failure on bytes that are not a serialized bundle. -/
def decodeConvPayload (l : List Nat) : Option ConvSensitive :=
  match decodeOptStr l with
  | some (pp, rest) =>
      match decodeOptStr rest with
      | some (t, []) => some { promptPrefix := pp, title := t }
      | _ => none
  | none => none

/-- Serialization of the message-sensitive bundle (`text` then `content`). -/
def encodeMsgPayload (p : MsgSensitive) : List Nat :=
  encodeOptStr p.text ++ encodeOptStr p.content

/-- Parse of the message-sensitive bundle. -/
def decodeMsgPayload (l : List Nat) : Option MsgSensitive :=
  match decodeOptStr l with
  | some (t, rest) =>
      match decodeOptStr rest with
      | some (c, []) => some { text := t, content := c }
      | _ => none
  | none => none

/-- Model of the external `CryptoJS.AES` primitive the source configures with
CBC mode and Pkcs7 padding: a keyed, IV-dependent transformation of byte
lists together with its decryption direction. -/
structure AESCipher where
  enc : String → List Nat → List Nat → List Nat
  dec : String → List Nat → List Nat → List Nat

/-- Contract of the AES primitive: decryption inverts encryption under the
same key and IV. -/
def AESInverts (A : AESCipher) : Prop :=
  ∀ k iv d, A.dec k iv (A.enc k iv d) = d

/-- Degenerate cipher instance used to evaluate the model on concrete
inputs (any `AESCipher` satisfying `AESInverts` works). -/
def idAES : AESCipher :=
  { enc := fun _ _ d => d, dec := fun _ _ d => d }

/-- ClientStorage.encrypt (source lines 1153-1171): throws when no key is
loaded; otherwise encrypts the serialized payload under a caller-supplied
random IV and records the encryption timestamp.  No checksum is computed. -/
def encryptPayload (A : AESCipher) (key : Option String) (iv : List Nat)
    (now : Nat) (payload : List Nat) : Except StorageError EncryptedData :=
  match key with
  | none => .error .keyUnavailable
  | some k => .ok { data := A.enc k iv payload, iv := iv, timestamp := now }

/-- ClientStorage.decrypt (source lines 1176-1189) specialized to the
conversation bundle: throws when no key is loaded, otherwise AES-decrypts and
parses; a parse failure is the only data-dependent failure mode (there is no
stored checksum to verify). -/
def decryptConvPayload (A : AESCipher) (key : Option String)
    (e : EncryptedData) : Except StorageError ConvSensitive :=
  match key with
  | none => .error .keyUnavailable
  | some k =>
      match decodeConvPayload (A.dec k e.iv e.data) with
      | some v => .ok v
      | none => .error .malformedData

/-- ClientStorage.decrypt specialized to the message bundle. -/
def decryptMsgPayload (A : AESCipher) (key : Option String)
    (e : EncryptedData) : Except StorageError MsgSensitive :=
  match key with
  | none => .error .keyUnavailable
  | some k =>
      match decodeMsgPayload (A.dec k e.iv e.data) with
      | some v => .ok v
      | none => .error .malformedData

/-- Flip the byte at position `i` of a byte list (xor with 1), leaving the
rest unchanged: the ciphertext corruption of spec §8. -/
def flipByteAt (i : Nat) (l : List Nat) : List Nat :=
  (List.range l.length).zip l |>.map (fun p => if p.1 = i then p.2 ^^^ 1 else p.2)

end ClientStorage

namespace ClientStorage

theorem decodeOptStr_encodeOptStr (o : Option String) (rest : List Nat) :
    decodeOptStr (encodeOptStr o ++ rest) = some (o, rest) := by
  cases o with
  | none => rfl
  | some s =>
      simp only [encodeOptStr, decodeOptStr, List.cons_append]
      have hlen : (s.data.map Char.toNat).length = s.data.length := by
        simp
      have hle : s.data.length ≤ ((s.data.map Char.toNat) ++ rest).length := by
        simp
      rw [if_pos hle]
      have htake : ((s.data.map Char.toNat) ++ rest).take s.data.length
          = s.data.map Char.toNat := by
        rw [← hlen, List.take_left]
      have hdrop : ((s.data.map Char.toNat) ++ rest).drop s.data.length = rest := by
        rw [← hlen, List.drop_left]
      rw [htake, hdrop]
      simp only [List.map_map]
      have hmap : s.data.map (Char.ofNat ∘ Char.toNat) = s.data := by
        have hcongr : s.data.map (Char.ofNat ∘ Char.toNat) = s.data.map id :=
          List.map_congr_left (fun c _ => Char.ofNat_toNat c)
        rw [hcongr, List.map_id]
      rw [hmap]

theorem decodeConvPayload_encodeConvPayload (p : ConvSensitive) :
    decodeConvPayload (encodeConvPayload p) = some p := by
  have h1 := decodeOptStr_encodeOptStr p.promptPrefix (encodeOptStr p.title)
  have h2 : decodeOptStr (encodeOptStr p.title) = some (p.title, []) := by
    simpa using decodeOptStr_encodeOptStr p.title []
  simp [decodeConvPayload, encodeConvPayload, h1, h2]

theorem decodeMsgPayload_encodeMsgPayload (p : MsgSensitive) :
    decodeMsgPayload (encodeMsgPayload p) = some p := by
  have h1 := decodeOptStr_encodeOptStr p.text (encodeOptStr p.content)
  have h2 : decodeOptStr (encodeOptStr p.content) = some (p.content, []) := by
    simpa using decodeOptStr_encodeOptStr p.content []
  simp [decodeMsgPayload, encodeMsgPayload, h1, h2]

/-- Conversation as the caller hands it to the facade (type `TConversation`;
only the fields the storage engine reads).  `updatedAt` is optional because the
source defaults it: `conversation.updatedAt || new Date().toISOString()`. -/
structure TConversation where
  conversationId : String
  title : Option String
  promptPrefix : Option String
  createdAt : Nat
  updatedAt : Option Nat
deriving DecidableEq, Repr

/-- Message as the caller hands it to the facade (type `TMessage`).
`createdAt` is optional because the source defaults it. -/
structure TMessage where
  messageId : String
  conversationId : String
  parentMessageId : Option String
  isCreatedByUser : Bool
  text : Option String
  content : Option String
  createdAt : Option Nat
deriving DecidableEq, Repr

/-- Conversation record as persisted in the `conversations` object store
(source interface `StoredConversation`): keyPath `conversationId`, with the
bookkeeping fields `storeConversation` adds and the optional encrypted
bundle. -/
structure StoredConversation where
  conversationId : String
  title : Option String
  promptPrefix : Option String
  createdAt : Nat
  updatedAt : Nat
  lastAccessed : Nat
  syncStatus : SyncStatus
  encryptedData : Option EncryptedData
  encryptedAt : Option Nat
deriving DecidableEq, Repr

/-- Message record as persisted in the `messages` object store
(source interface `StoredMessage`): keyPath `messageId`. -/
structure StoredMessage where
  messageId : String
  conversationId : String
  parentMessageId : Option String
  isCreatedByUser : Bool
  text : Option String
  content : Option String
  createdAt : Nat
  syncStatus : SyncStatus
  encryptedData : Option EncryptedData
  encryptedAt : Option Nat
deriving DecidableEq, Repr

/-- Global settings record (source interface `StorageSettings`). -/
structure StorageSettings where
  encryptionEnabled : Bool
  backupEnabled : Bool
  masterKeyHash : Option String
  lastBackup : Option Nat
  maxStorageSize : Option Nat
deriving DecidableEq, Repr

/-- The IndexedDB database `LibreChat`: the three object stores.  `settings`
holds the value of the single record keyed `'global'`, when present. -/
structure DB where
  conversations : List StoredConversation
  messages : List StoredMessage
  settings : Option StorageSettings
deriving DecidableEq, Repr

/-- The empty database, as created by the `upgrade` callback. -/
def emptyDB : DB := { conversations := [], messages := [], settings := none }

/-- IndexedDB `put` on an object store with a `keyPath`: replaces the record
with the same key, otherwise inserts. -/
def idbPut {α : Type} (keyf : α → String) (r : α) (l : List α) : List α :=
  if l.any (fun x => decide (keyf x = keyf r)) then
    l.map (fun x => if keyf x = keyf r then r else x)
  else
    l ++ [r]

/-- Stable insertion into a list sorted by the boolean comparator `le`. -/
def insertSorted {α : Type} (le : α → α → Bool) (a : α) : List α → List α
  | [] => [a]
  | b :: bs => if le a b then a :: b :: bs else b :: insertSorted le a bs

/-- Stable insertion sort by the boolean comparator `le`: the model of both
index-order traversal of an object store and `Array.prototype.sort` (stable
per ES2019). -/
def sortWith {α : Type} (le : α → α → Bool) : List α → List α
  | [] => []
  | a :: as => insertSorted le a (sortWith le as)

/-- ClientStorage.getSettings (source lines 1203-1221): the stored global
record's value, or the documented defaults when absent (100MB quota,
encryption off, backup on). -/
def getSettingsVal (db : DB) : StorageSettings :=
  match db.settings with
  | some s => s
  | none =>
      { encryptionEnabled := false
        backupEnabled := true
        masterKeyHash := none
        lastBackup := none
        maxStorageSize := some (100 * 1024 * 1024) }

/-- ClientStorage.updateSettings (source lines 1226-1234): put the value under
the key `'global'`. -/
def updateSettings (db : DB) (settings : StorageSettings) : DB :=
  { db with settings := some settings }

/-- The record `storeConversation` builds before the `put` (source lines
1242-1268): the bookkeeping fields `lastAccessed := now`,
`syncStatus := 'local'` and the `updatedAt` default; when the settings flag
is on and a key is loaded, `{promptPrefix, title}` is encrypted into the
attached bundle and the plaintext fields are deleted (on an encryption error
the catch keeps the record without encryption). -/
def storedConvRecord (A : AESCipher) (key : Option String) (now : Nat)
    (iv : List Nat) (settings : StorageSettings) (conversation : TConversation) :
    StoredConversation :=
  let base : StoredConversation :=
    { conversationId := conversation.conversationId
      title := conversation.title
      promptPrefix := conversation.promptPrefix
      createdAt := conversation.createdAt
      updatedAt := conversation.updatedAt.getD now
      lastAccessed := now
      syncStatus := .localTag
      encryptedData := none
      encryptedAt := none }
  if settings.encryptionEnabled then
    match key with
    | some k =>
        let sensitiveData : ConvSensitive :=
          { promptPrefix := conversation.promptPrefix, title := conversation.title }
        match encryptPayload A (some k) iv now (encodeConvPayload sensitiveData) with
        | .ok encrypted =>
            { base with
                encryptedData := some encrypted
                encryptedAt := some now
                promptPrefix := none
                title := none }
        | .error _ => base
    | none => base
  else base

/-- ClientStorage.storeConversation (source lines 1239-1271): build the
stored record under the current settings and `put` it into the
`conversations` store. -/
def storeConversation (A : AESCipher) (key : Option String) (now : Nat)
    (iv : List Nat) (db : DB) (conversation : TConversation) : DB :=
  let stored := storedConvRecord A key now iv (getSettingsVal db) conversation
  { db with conversations := idbPut (fun c => c.conversationId) stored db.conversations }

/-- The record `storeMessage` builds before the `put` (source lines
1384-1408), over `{text, content}`, with the `createdAt` default. -/
def storedMsgRecord (A : AESCipher) (key : Option String) (now : Nat)
    (iv : List Nat) (settings : StorageSettings) (message : TMessage) :
    StoredMessage :=
  let base : StoredMessage :=
    { messageId := message.messageId
      conversationId := message.conversationId
      parentMessageId := message.parentMessageId
      isCreatedByUser := message.isCreatedByUser
      text := message.text
      content := message.content
      createdAt := message.createdAt.getD now
      syncStatus := .localTag
      encryptedData := none
      encryptedAt := none }
  if settings.encryptionEnabled then
    match key with
    | some k =>
        let sensitiveData : MsgSensitive :=
          { text := message.text, content := message.content }
        match encryptPayload A (some k) iv now (encodeMsgPayload sensitiveData) with
        | .ok encrypted =>
            { base with
                encryptedData := some encrypted
                encryptedAt := some now
                text := none
                content := none }
        | .error _ => base
    | none => base
  else base

/-- ClientStorage.storeMessage (source lines 1381-1411): build the stored
record under the current settings and `put` it into the `messages` store.
Note: no quota check is performed anywhere in it. -/
def storeMessage (A : AESCipher) (key : Option String) (now : Nat)
    (iv : List Nat) (db : DB) (message : TMessage) : DB :=
  let stored := storedMsgRecord A key now iv (getSettingsVal db) message
  { db with messages := idbPut (fun m => m.messageId) stored db.messages }

/-- Decryption of one stored conversation as performed inside
`getConversation` and `getConversations`: when a bundle is attached and a key
is loaded, try to decrypt and overlay the sensitive fields, clearing the
bundle; a decrypt failure is caught per record and leaves the stored record
as it is. -/
def decryptStoredConv (A : AESCipher) (key : Option String)
    (s : StoredConversation) : StoredConversation :=
  match s.encryptedData, key with
  | some e, some k =>
      match decryptConvPayload A (some k) e with
      | .ok d =>
          { s with
              title := d.title
              promptPrefix := d.promptPrefix
              encryptedData := none
              encryptedAt := none }
      | .error _ => s
  | _, _ => s

/-- Decryption of one stored message as performed inside
`getMessagesByConversationId`, with the same per-record catch. -/
def decryptStoredMessage (A : AESCipher) (key : Option String)
    (s : StoredMessage) : StoredMessage :=
  match s.encryptedData, key with
  | some e, some k =>
      match decryptMsgPayload A (some k) e with
      | .ok d =>
          { s with
              text := d.text
              content := d.content
              encryptedData := none
              encryptedAt := none }
      | .error _ => s
  | _, _ => s

/-- Lexicographic order on char lists by code point: the model of IndexedDB
string key order. -/
def charListLe : List Char → List Char → Bool
  | [], _ => true
  | _ :: _, [] => false
  | a :: as, b :: bs =>
      if a.toNat < b.toNat then true
      else if b.toNat < a.toNat then false
      else charListLe as bs

/-- String key order. -/
def strLe (a b : String) : Bool := charListLe a.data b.data

/-- ClientStorage.getConversation (source lines 1276-1309): look up by id
(`null` when absent), touch `lastAccessed` and `put` the touched record back,
then return it with the sensitive fields decrypted when possible.  Returns the
result together with the updated database. -/
def getConversation (A : AESCipher) (key : Option String) (now : Nat)
    (db : DB) (conversationId : String) : Option StoredConversation × DB :=
  match db.conversations.find? (fun c => decide (c.conversationId = conversationId)) with
  | none => (none, db)
  | some stored =>
      let touched := { stored with lastAccessed := now }
      let db2 :=
        { db with conversations := idbPut (fun c => c.conversationId) touched db.conversations }
      (some (decryptStoredConv A key touched), db2)

/-- The secondary indexes of the `conversations` store that
`getConversations` can traverse. -/
inductive SortField where
  | createdAt
  | updatedAt
  | lastAccessed
deriving DecidableEq, Repr

/-- Traversal direction (`'asc'` opens a `next` cursor, `'desc'` a `prev`
cursor). -/
inductive SortOrder where
  | asc
  | desc
deriving DecidableEq, Repr

/-- The index key of a conversation record for a sort field. -/
def indexKey (f : SortField) (c : StoredConversation) : Nat :=
  match f with
  | .createdAt => c.createdAt
  | .updatedAt => c.updatedAt
  | .lastAccessed => c.lastAccessed

/-- The order in which an IndexedDB cursor over the chosen index visits the
records: ascending by index key, ties by primary key; a `prev` cursor visits
the exact reverse. -/
def indexOrder (f : SortField) (o : SortOrder) (l : List StoredConversation) :
    List StoredConversation :=
  let asc := sortWith
    (fun a b =>
      if indexKey f a < indexKey f b then true
      else if indexKey f b < indexKey f a then false
      else strLe a.conversationId b.conversationId) l
  match o with
  | .asc => asc
  | .desc => asc.reverse

/-- Options of `getConversations`, with the source's defaults
(`limit = 25`, `sortBy = 'updatedAt'`, `sortOrder = 'desc'`). -/
structure ListOptions where
  cursor : Option String := none
  limit : Nat := 25
  sortBy : SortField := .updatedAt
  sortOrder : SortOrder := .desc
deriving Repr

/-- The `while (cursor && count < limit)` loop of `getConversations` over the
remaining records of the index traversal: skips records until the one whose id
equals the request cursor has been passed, pushes decrypted records up to
`limit`, and on exit reports the id of the record the cursor stands on (the
source's `nextCursor: cursor ? cursor.value.conversationId : undefined`). -/
def convPageLoop (A : AESCipher) (key : Option String) (cursorOpt : Option String)
    (limit : Nat) :
    List StoredConversation → Nat → Bool → List StoredConversation × Option String
  | [], _, _ => ([], none)
  | r :: rs, count, shouldStart =>
      if count < limit then
        if shouldStart = false ∧ cursorOpt = some r.conversationId then
          convPageLoop A key cursorOpt limit rs count true
        else if shouldStart then
          let rest := convPageLoop A key cursorOpt limit rs (count + 1) shouldStart
          (decryptStoredConv A key r :: rest.1, rest.2)
        else
          convPageLoop A key cursorOpt limit rs count shouldStart
      else ([], some r.conversationId)

/-- ClientStorage.getConversations (source lines 1314-1376): open a cursor on
the chosen index in the chosen direction and run the pagination loop;
`shouldStart` begins true exactly when no request cursor was given. -/
def getConversations (A : AESCipher) (key : Option String) (db : DB)
    (opts : ListOptions) : List StoredConversation × Option String :=
  convPageLoop A key opts.cursor opts.limit
    (indexOrder opts.sortBy opts.sortOrder db.conversations) 0 opts.cursor.isNone

/-- Repeated calls of `getConversations`, feeding each page's `nextCursor`
into the next call, concatenating the pages (spec §8, pagination
completeness).  `fuel` bounds the number of calls. -/
def paginateAll (A : AESCipher) (key : Option String) (db : DB) (limit : Nat)
    (f : SortField) (o : SortOrder) :
    Nat → Option String → List StoredConversation
  | 0, _ => []
  | fuel + 1, cursorOpt =>
      let page := getConversations A key db
        { cursor := cursorOpt, limit := limit, sortBy := f, sortOrder := o }
      match page.2 with
      | none => page.1
      | some c => page.1 ++ paginateAll A key db limit f o fuel (some c)

/-- ClientStorage.getMessagesByConversationId (source lines 1416-1458): walk
the `conversationId` index over exactly the messages of the conversation,
decrypt each with the per-record catch, then sort ascending by creation
time. -/
def getMessagesByConversationId (A : AESCipher) (key : Option String)
    (db : DB) (conversationId : String) : List StoredMessage :=
  let filtered := db.messages.filter (fun m => decide (m.conversationId = conversationId))
  let indexOrdered := sortWith (fun a b => strLe a.messageId b.messageId) filtered
  let decrypted := indexOrdered.map (decryptStoredMessage A key)
  sortWith (fun a b => decide (a.createdAt ≤ b.createdAt)) decrypted

/-- ClientStorage.deleteConversation (source lines 1463-1487): one readwrite
transaction deleting the conversation record and every message whose
`conversationId` matches. -/
def deleteConversation (db : DB) (conversationId : String) : DB :=
  { db with
      conversations := db.conversations.filter
        (fun c => decide (¬ c.conversationId = conversationId))
      messages := db.messages.filter
        (fun m => decide (¬ m.conversationId = conversationId)) }

/-- ClientStorage.clearAllData (source lines 1492-1508): clear both record
stores (the settings record survives). -/
def clearAllData (db : DB) : DB :=
  { db with conversations := [], messages := [] }

/-- ClientStorage.getStorageStats (source lines 1513-1542):
`(conversationCount, messageCount, estimatedSizeBytes)` with the rough
estimate `conversationCount * 1000 + messageCount * 500`. -/
def getStorageStats (db : DB) : Nat × Nat × Nat :=
  let conversationCount := db.conversations.length
  let messageCount := db.messages.length
  (conversationCount, messageCount, conversationCount * 1000 + messageCount * 500)

/-- The backup snapshot (source: `{conversations, messages, settings,
exportDate}`). -/
structure Snapshot where
  conversations : List StoredConversation
  messages : List StoredMessage
  settings : Option StorageSettings
  exportDate : Nat
deriving DecidableEq, Repr

/-- ClientStorage.exportData (source lines 1547-1573): one
`getConversations` page of up to 10000 conversations, all messages of each
exported conversation, and the settings. -/
def exportData (A : AESCipher) (key : Option String) (db : DB) (now : Nat) :
    Snapshot :=
  let conversationsData := getConversations A key db
    { cursor := none, limit := 10000, sortBy := .updatedAt, sortOrder := .desc }
  let allMessages := conversationsData.1.flatMap
    (fun conversation => getMessagesByConversationId A key db conversation.conversationId)
  { conversations := conversationsData.1
    messages := allMessages
    settings := some (getSettingsVal db)
    exportDate := now }

/-- View of an exported conversation record as the `TConversation` that
`importData` hands back to `storeConversation` (the extra stored fields are
overwritten by the store call either way). -/
def toTConversation (s : StoredConversation) : TConversation :=
  { conversationId := s.conversationId
    title := s.title
    promptPrefix := s.promptPrefix
    createdAt := s.createdAt
    updatedAt := some s.updatedAt }

/-- View of an exported message record as a `TMessage` for `storeMessage`. -/
def toTMessage (s : StoredMessage) : TMessage :=
  { messageId := s.messageId
    conversationId := s.conversationId
    parentMessageId := s.parentMessageId
    isCreatedByUser := s.isCreatedByUser
    text := s.text
    content := s.content
    createdAt := some s.createdAt }

/-- ClientStorage.importData (source lines 1578-1608), with the two store
operations abstracted as fallible parameters: the source awaits
`this.storeConversation` / `this.storeMessage` for every snapshot record
inside one `try`, and the `catch` logs and rethrows, so the first rejected
store call aborts the import; the settings are imported last when present.
The result is the final database or the rethrown error — the source returns
`Promise<void>`, no imported/failed counts. -/
def importData (storeC : DB → StoredConversation → Except StorageError DB)
    (storeM : DB → StoredMessage → Except StorageError DB)
    (db : DB) (snap : Snapshot) : Except StorageError DB := do
  let db1 ← snap.conversations.foldlM storeC db
  let db2 ← snap.messages.foldlM storeM db1
  match snap.settings with
  | some s => pure (updateSettings db2 s)
  | none => pure db2

/-- ClientStorage.importData with the store calls instantiated by the real
(never-rejecting) `storeConversation` / `storeMessage` models: the fault-free
behaviour of the import. -/
def importDataPure (A : AESCipher) (key : Option String) (now : Nat)
    (iv : List Nat) (db : DB) (snap : Snapshot) : DB :=
  let db1 := snap.conversations.foldl
    (fun d c => storeConversation A key now iv d (toTConversation c)) db
  let db2 := snap.messages.foldl
    (fun d m => storeMessage A key now iv d (toTMessage m)) db1
  match snap.settings with
  | some s => updateSettings db2 s
  | none => db2

/-- ClientStorage.initializeEncryption (source lines 1112-1148), fault-free
path.  External inputs are explicit: `sha` models `CryptoJS.SHA256(·).toString()`,
`randKey` the generated random 256-bit key, `storedLSKey` the
`localStorage.getItem('librechat_master_key')` result.  When the settings say
encryption is disabled it generates a key, records its hash and flips the
flag on; when enabled with a recorded hash it verifies the locally stored key
against the hash and rotates to a fresh key on mismatch.  Returns the updated
database and the in-memory `encryptionKey`. -/
def initializeEncryption (sha : String → String) (randKey : String)
    (storedLSKey : Option String) (db : DB) : DB × Option String :=
  let settings := getSettingsVal db
  if settings.encryptionEnabled = false then
    let masterKey := randKey
    (updateSettings db
      { settings with encryptionEnabled := true, masterKeyHash := some (sha masterKey) },
     some masterKey)
  else
    match settings.masterKeyHash with
    | some h =>
        match storedLSKey with
        | some storedKey =>
            if sha storedKey = h then (db, some storedKey)
            else
              let masterKey := randKey
              (updateSettings db { settings with masterKeyHash := some (sha masterKey) },
               some masterKey)
        | none =>
            let masterKey := randKey
            (updateSettings db { settings with masterKeyHash := some (sha masterKey) },
             some masterKey)
    | none => (db, none)

theorem mem_insertSorted {α : Type} (le : α → α → Bool) (a b : α) (l : List α) :
    b ∈ insertSorted le a l ↔ b = a ∨ b ∈ l := by
  induction l with
  | nil => simp [insertSorted]
  | cons c cs ih =>
      simp only [insertSorted]
      by_cases hle : le a c = true
      · rw [if_pos hle]
        simp [List.mem_cons]
      · rw [if_neg hle]
        simp only [List.mem_cons, ih]
        tauto

theorem insertSorted_perm {α : Type} (le : α → α → Bool) (a : α) (l : List α) :
    (insertSorted le a l).Perm (a :: l) := by
  induction l with
  | nil => simp [insertSorted]
  | cons c cs ih =>
      simp only [insertSorted]
      by_cases hle : le a c = true
      · rw [if_pos hle]
      · rw [if_neg hle]
        exact List.Perm.trans (List.Perm.cons c ih) (List.Perm.swap a c cs)

theorem sortWith_perm {α : Type} (le : α → α → Bool) (l : List α) :
    (sortWith le l).Perm l := by
  induction l with
  | nil => exact List.Perm.refl []
  | cons a as ih =>
      exact List.Perm.trans (insertSorted_perm le a (sortWith le as)) (List.Perm.cons a ih)

theorem pairwise_insertSorted {α : Type} (le : α → α → Bool)
    (total : ∀ a b, le a b = true ∨ le b a = true)
    (htrans : ∀ a b c, le a b = true → le b c = true → le a c = true)
    (a : α) :
    ∀ l : List α, l.Pairwise (fun x y => le x y = true) →
      (insertSorted le a l).Pairwise (fun x y => le x y = true) := by
  intro l
  induction l with
  | nil => intro _; simp [insertSorted]
  | cons c cs ih =>
      intro h
      rw [List.pairwise_cons] at h
      obtain ⟨hc, hcs⟩ := h
      simp only [insertSorted]
      by_cases hle : le a c = true
      · rw [if_pos hle]
        rw [List.pairwise_cons]
        refine ⟨?_, List.pairwise_cons.mpr ⟨hc, hcs⟩⟩
        intro x hx
        rcases List.mem_cons.mp hx with rfl | hx2
        · exact hle
        · exact htrans a c x hle (hc x hx2)
      · rw [if_neg hle]
        rw [List.pairwise_cons]
        refine ⟨?_, ih hcs⟩
        intro x hx
        rcases (mem_insertSorted le a x cs).mp hx with hxa | hx2
        · subst hxa
          exact (total _ _).resolve_left hle
        · exact hc x hx2

theorem pairwise_sortWith {α : Type} (le : α → α → Bool)
    (total : ∀ a b, le a b = true ∨ le b a = true)
    (htrans : ∀ a b c, le a b = true → le b c = true → le a c = true)
    (l : List α) :
    (sortWith le l).Pairwise (fun x y => le x y = true) := by
  induction l with
  | nil => simp [sortWith]
  | cons a as ih => exact pairwise_insertSorted le total htrans a (sortWith le as) ih

theorem mem_idbPut_self {α : Type} (keyf : α → String) (r : α) (l : List α) :
    r ∈ idbPut keyf r l := by
  unfold idbPut
  split
  case isTrue h =>
      rw [List.any_eq_true] at h
      obtain ⟨x, hx, hkey⟩ := h
      rw [decide_eq_true_eq] at hkey
      exact List.mem_map.mpr ⟨x, hx, by simp [hkey]⟩
  case isFalse h =>
      exact List.mem_append_right _ (List.mem_singleton.mpr rfl)

theorem find?_map_put {α : Type} (keyf : α → String) (r : α) :
    ∀ l : List α, l.any (fun x => decide (keyf x = keyf r)) = true →
      (l.map (fun x => if keyf x = keyf r then r else x)).find?
        (fun x => decide (keyf x = keyf r)) = some r := by
  intro l
  induction l with
  | nil => intro h; simp at h
  | cons x xs ih =>
      intro h
      by_cases hx : keyf x = keyf r
      · simp [List.find?, hx]
      · have hxs : xs.any (fun y => decide (keyf y = keyf r)) = true := by
          rcases List.any_eq_true.mp h with ⟨y, hy, hky⟩
          rcases List.mem_cons.mp hy with rfl | hy2
          · exact absurd (decide_eq_true_eq.mp hky) hx
          · exact List.any_eq_true.mpr ⟨y, hy2, hky⟩
        simpa [List.find?, hx] using ih hxs

theorem find?_idbPut {α : Type} (keyf : α → String) (r : α) (l : List α) :
    (idbPut keyf r l).find? (fun x => decide (keyf x = keyf r)) = some r := by
  unfold idbPut
  split
  case isTrue h => exact find?_map_put keyf r l h
  case isFalse h =>
      induction l with
      | nil => simp [List.find?]
      | cons x xs ih =>
          have hx : ¬ keyf x = keyf r := by
            intro hk
            have : (x :: xs).any (fun y => decide (keyf y = keyf r)) = true :=
              List.any_eq_true.mpr ⟨x, List.mem_cons_self x xs, decide_eq_true hk⟩
            simp [this] at h
          have hxs : ¬ xs.any (fun y => decide (keyf y = keyf r)) = true := by
            intro hk
            rcases List.any_eq_true.mp hk with ⟨y, hy, hky⟩
            have : (x :: xs).any (fun y => decide (keyf y = keyf r)) = true :=
              List.any_eq_true.mpr ⟨y, List.mem_cons_of_mem x hy, hky⟩
            simp [this] at h
          simpa [List.find?, hx] using ih hxs

theorem idbPut_length {α : Type} (keyf : α → String) (r : α) (l : List α)
    (h : ∃ x ∈ l, keyf x = keyf r) :
    (idbPut keyf r l).length = l.length := by
  unfold idbPut
  rw [if_pos]
  · simp
  · obtain ⟨x, hx, hk⟩ := h
    exact List.any_eq_true.mpr ⟨x, hx, decide_eq_true hk⟩

theorem idbPut_hasKey {α : Type} (keyf : α → String) (r : α) (l : List α) (k : String)
    (h : ∃ x ∈ l, keyf x = k) : ∃ x ∈ idbPut keyf r l, keyf x = k := by
  unfold idbPut
  split
  case isTrue hc =>
      obtain ⟨x, hx, hk⟩ := h
      by_cases hxr : keyf x = keyf r
      · refine ⟨r, List.mem_map.mpr ⟨x, hx, by simp [hxr]⟩, ?_⟩
        rw [← hxr]
        exact hk
      · exact ⟨x, List.mem_map.mpr ⟨x, hx, by simp [hxr]⟩, hk⟩
  case isFalse hc =>
      obtain ⟨x, hx, hk⟩ := h
      exact ⟨x, List.mem_append_left _ hx, hk⟩

theorem decryptStoredConv_conversationId (A : AESCipher) (key : Option String)
    (s : StoredConversation) :
    (decryptStoredConv A key s).conversationId = s.conversationId := by
  unfold decryptStoredConv
  split
  · split <;> rfl
  · rfl

theorem decryptStoredMessage_messageId (A : AESCipher) (key : Option String)
    (s : StoredMessage) :
    (decryptStoredMessage A key s).messageId = s.messageId := by
  unfold decryptStoredMessage
  split
  · split <;> rfl
  · rfl

theorem storedConvRecord_conversationId (A : AESCipher) (key : Option String)
    (now : Nat) (iv : List Nat) (settings : StorageSettings)
    (conversation : TConversation) :
    (storedConvRecord A key now iv settings conversation).conversationId
      = conversation.conversationId := by
  unfold storedConvRecord
  split
  · split <;> rfl
  · rfl

theorem storedMsgRecord_messageId (A : AESCipher) (key : Option String)
    (now : Nat) (iv : List Nat) (settings : StorageSettings) (message : TMessage) :
    (storedMsgRecord A key now iv settings message).messageId
      = message.messageId := by
  unfold storedMsgRecord
  split
  · split <;> rfl
  · rfl

theorem convPageLoop_subset (A : AESCipher) (key : Option String)
    (cursorOpt : Option String) (limit : Nat) :
    ∀ (l : List StoredConversation) (count : Nat) (ss : Bool),
      ∀ c ∈ (convPageLoop A key cursorOpt limit l count ss).1,
        ∃ x ∈ l, c = decryptStoredConv A key x := by
  intro l
  induction l with
  | nil =>
      intro count ss c hc
      simp [convPageLoop] at hc
  | cons r rs ih =>
      intro count ss c hc
      simp only [convPageLoop] at hc
      by_cases h1 : count < limit
      · rw [if_pos h1] at hc
        by_cases h2 : ss = false ∧ cursorOpt = some r.conversationId
        · rw [if_pos h2] at hc
          obtain ⟨x, hx, he⟩ := ih count true c hc
          exact ⟨x, List.mem_cons_of_mem r hx, he⟩
        · rw [if_neg h2] at hc
          by_cases h3 : ss = true
          · rw [if_pos h3] at hc
            rcases List.mem_cons.mp hc with rfl | hc2
            · exact ⟨r, List.mem_cons_self r rs, rfl⟩
            · obtain ⟨x, hx, he⟩ := ih (count + 1) ss c hc2
              exact ⟨x, List.mem_cons_of_mem r hx, he⟩
          · rw [if_neg h3] at hc
            obtain ⟨x, hx, he⟩ := ih count ss c hc
            exact ⟨x, List.mem_cons_of_mem r hx, he⟩
      · rw [if_neg h1] at hc
        simp at hc

theorem indexOrder_mem (f : SortField) (o : SortOrder)
    (l : List StoredConversation) (x : StoredConversation) :
    x ∈ indexOrder f o l ↔ x ∈ l := by
  unfold indexOrder
  cases o with
  | asc => exact (sortWith_perm _ l).mem_iff
  | desc =>
      rw [List.mem_reverse]
      exact (sortWith_perm _ l).mem_iff

theorem getConversations_subset (A : AESCipher) (key : Option String) (db : DB)
    (opts : ListOptions) :
    ∀ c ∈ (getConversations A key db opts).1,
      ∃ x ∈ db.conversations, c.conversationId = x.conversationId := by
  intro c hc
  obtain ⟨x, hx, he⟩ := convPageLoop_subset A key opts.cursor opts.limit
    (indexOrder opts.sortBy opts.sortOrder db.conversations) 0 opts.cursor.isNone c hc
  refine ⟨x, (indexOrder_mem opts.sortBy opts.sortOrder db.conversations x).mp hx, ?_⟩
  rw [he]
  exact decryptStoredConv_conversationId A key x

theorem getMessagesByConversationId_subset (A : AESCipher) (key : Option String)
    (db : DB) (conversationId : String) :
    ∀ m ∈ getMessagesByConversationId A key db conversationId,
      ∃ x ∈ db.messages, m.messageId = x.messageId := by
  intro m hm
  unfold getMessagesByConversationId at hm
  have hm2 := (sortWith_perm
    (fun a b : StoredMessage => decide (a.createdAt ≤ b.createdAt)) _).mem_iff.mp hm
  obtain ⟨x, hx, he⟩ := List.mem_map.mp hm2
  have hx2 := (sortWith_perm
    (fun a b : StoredMessage => strLe a.messageId b.messageId) _).mem_iff.mp hx
  have hx3 := List.mem_filter.mp hx2
  refine ⟨x, hx3.1, ?_⟩
  rw [← he]
  exact decryptStoredMessage_messageId A key x

/-- The conversation-import loop of `importData` (`for (const conversation of
data.conversations) await this.storeConversation(conversation)`),
fault-free. -/
def importConvs (A : AESCipher) (key : Option String) (now : Nat) (iv : List Nat)
    (db : DB) (cs : List StoredConversation) : DB :=
  cs.foldl (fun d c => storeConversation A key now iv d (toTConversation c)) db

/-- The message-import loop of `importData`, fault-free. -/
def importMsgs (A : AESCipher) (key : Option String) (now : Nat) (iv : List Nat)
    (db : DB) (ms : List StoredMessage) : DB :=
  ms.foldl (fun d m => storeMessage A key now iv d (toTMessage m)) db

theorem importConvs_preserves (A : AESCipher) (key : Option String) (now : Nat)
    (iv : List Nat) :
    ∀ (cs : List StoredConversation) (db : DB),
      (∀ c ∈ cs, ∃ x ∈ db.conversations, x.conversationId = c.conversationId) →
      (importConvs A key now iv db cs).conversations.length = db.conversations.length ∧
      (∀ k, (∃ x ∈ db.conversations, x.conversationId = k) →
        ∃ x ∈ (importConvs A key now iv db cs).conversations, x.conversationId = k) ∧
      (importConvs A key now iv db cs).messages = db.messages ∧
      (importConvs A key now iv db cs).settings = db.settings := by
  intro cs
  induction cs with
  | nil =>
      intro db h
      exact ⟨rfl, fun k hk => hk, rfl, rfl⟩
  | cons c cs ih =>
      intro db h
      have hstep : importConvs A key now iv db (c :: cs)
          = importConvs A key now iv
              (storeConversation A key now iv db (toTConversation c)) cs := rfl
      set db1 := storeConversation A key now iv db (toTConversation c) with hdb1
      have hkeyr : (storedConvRecord A key now iv (getSettingsVal db)
          (toTConversation c)).conversationId = c.conversationId := by
        rw [storedConvRecord_conversationId]
        rfl
      have hconv1 : db1.conversations = idbPut (fun x => x.conversationId)
          (storedConvRecord A key now iv (getSettingsVal db) (toTConversation c))
          db.conversations := rfl
      have hmsg1 : db1.messages = db.messages := rfl
      have hset1 : db1.settings = db.settings := rfl
      have hhead := h c (List.mem_cons_self c cs)
      have hlen1 : db1.conversations.length = db.conversations.length := by
        rw [hconv1]
        apply idbPut_length
        obtain ⟨x, hx, hk⟩ := hhead
        refine ⟨x, hx, ?_⟩
        rw [hk]
        exact hkeyr.symm
      have hpres1 : ∀ k, (∃ x ∈ db.conversations, x.conversationId = k) →
          ∃ x ∈ db1.conversations, x.conversationId = k := by
        intro k hk
        rw [hconv1]
        exact idbPut_hasKey _ _ _ k hk
      have htail : ∀ c2 ∈ cs, ∃ x ∈ db1.conversations, x.conversationId = c2.conversationId := by
        intro c2 hc2
        exact hpres1 _ (h c2 (List.mem_cons_of_mem c hc2))
      obtain ⟨l2, p2, m2, s2⟩ := ih db1 htail
      rw [hstep]
      exact ⟨by rw [l2, hlen1], fun k hk => p2 k (hpres1 k hk),
        by rw [m2, hmsg1], by rw [s2, hset1]⟩

theorem importMsgs_preserves (A : AESCipher) (key : Option String) (now : Nat)
    (iv : List Nat) :
    ∀ (ms : List StoredMessage) (db : DB),
      (∀ m ∈ ms, ∃ x ∈ db.messages, x.messageId = m.messageId) →
      (importMsgs A key now iv db ms).messages.length = db.messages.length ∧
      (∀ k, (∃ x ∈ db.messages, x.messageId = k) →
        ∃ x ∈ (importMsgs A key now iv db ms).messages, x.messageId = k) ∧
      (importMsgs A key now iv db ms).conversations = db.conversations ∧
      (importMsgs A key now iv db ms).settings = db.settings := by
  intro ms
  induction ms with
  | nil =>
      intro db h
      exact ⟨rfl, fun k hk => hk, rfl, rfl⟩
  | cons m ms ih =>
      intro db h
      have hstep : importMsgs A key now iv db (m :: ms)
          = importMsgs A key now iv
              (storeMessage A key now iv db (toTMessage m)) ms := rfl
      set db1 := storeMessage A key now iv db (toTMessage m) with hdb1
      have hkeyr : (storedMsgRecord A key now iv (getSettingsVal db)
          (toTMessage m)).messageId = m.messageId := by
        rw [storedMsgRecord_messageId]
        rfl
      have hmsgs1 : db1.messages = idbPut (fun x => x.messageId)
          (storedMsgRecord A key now iv (getSettingsVal db) (toTMessage m))
          db.messages := rfl
      have hconv1 : db1.conversations = db.conversations := rfl
      have hset1 : db1.settings = db.settings := rfl
      have hhead := h m (List.mem_cons_self m ms)
      have hlen1 : db1.messages.length = db.messages.length := by
        rw [hmsgs1]
        apply idbPut_length
        obtain ⟨x, hx, hk⟩ := hhead
        refine ⟨x, hx, ?_⟩
        rw [hk]
        exact hkeyr.symm
      have hpres1 : ∀ k, (∃ x ∈ db.messages, x.messageId = k) →
          ∃ x ∈ db1.messages, x.messageId = k := by
        intro k hk
        rw [hmsgs1]
        exact idbPut_hasKey _ _ _ k hk
      have htail : ∀ m2 ∈ ms, ∃ x ∈ db1.messages, x.messageId = m2.messageId := by
        intro m2 hm2
        exact hpres1 _ (h m2 (List.mem_cons_of_mem m hm2))
      obtain ⟨l2, p2, c2, s2⟩ := ih db1 htail
      rw [hstep]
      exact ⟨by rw [l2, hlen1], fun k hk => p2 k (hpres1 k hk),
        by rw [c2, hconv1], by rw [s2, hset1]⟩

theorem idbPut_unique_key {α : Type} (keyf : α → String) (r : α) (l : List α) :
    ∀ y ∈ idbPut keyf r l, keyf y = keyf r → y = r := by
  intro y hy hk
  unfold idbPut at hy
  split at hy
  case isTrue hc =>
      obtain ⟨x, hx, he⟩ := List.mem_map.mp hy
      by_cases hxr : keyf x = keyf r
      · rw [if_pos hxr] at he
        exact he.symm
      · rw [if_neg hxr] at he
        rw [← he] at hk
        exact absurd hk hxr
  case isFalse hc =>
      rcases List.mem_append.mp hy with hyl | hyr
      · exfalso
        apply hc
        exact List.any_eq_true.mpr ⟨y, hyl, decide_eq_true hk⟩
      · exact List.mem_singleton.mp hyr

end ClientStorage

namespace ClientStorage

/-- Conversation record used by the concrete evaluations below. -/
def exConv (id : String) (stamp : Nat) : StoredConversation :=
  { conversationId := id
    title := some id
    promptPrefix := none
    createdAt := stamp
    updatedAt := stamp
    lastAccessed := stamp
    syncStatus := .localTag
    encryptedData := none
    encryptedAt := none }

/-- Three stored conversations with distinct `updatedAt` stamps. -/
def dbThree : DB :=
  { conversations := [exConv "c1" 1, exConv "c2" 2, exConv "c3" 3]
    messages := []
    settings := none }

/-- C1: the claim fails on the code — paginating three conversations with
page size 2 (default `updatedAt` descending index) yields the pages
`[c3, c2]` and `[]`: `nextCursor` is the id of the first item of the next
page, and resumption skips the record whose id equals the cursor, so the
boundary conversation `c1` is never returned even though the store holds
three conversations. -/
theorem getConversations_drops_page_boundary :
    ((paginateAll idAES none dbThree 2 SortField.updatedAt SortOrder.desc 10 none).map
        (fun c => c.conversationId) = ["c3", "c2"]) ∧
    dbThree.conversations.length = 3 ∧
    ((getConversations idAES none dbThree { limit := 2 }).2 = some "c1") ∧
    ((getConversations idAES none dbThree { cursor := some "c1", limit := 2 }).1 = []) := by
  exact ⟨by decide, by decide, by decide, by decide⟩

/-- C3 (counterexample): a database whose settings put `maxStorageSize` at 0
while one message is already stored, so the estimated usage (500 bytes)
exceeds the configured maximum. -/
def dbQuota : DB :=
  { conversations := []
    messages := [
      { messageId := "m1"
        conversationId := "c1"
        parentMessageId := none
        isCreatedByUser := true
        text := some "x"
        content := none
        createdAt := 1
        syncStatus := .localTag
        encryptedData := none
        encryptedAt := none } ]
    settings := some
      { encryptionEnabled := false
        backupEnabled := true
        masterKeyHash := none
        lastBackup := none
        maxStorageSize := some 0 } }

/-- The message stored next in the quota counterexample. -/
def msgOverQuota : TMessage :=
  { messageId := "m2"
    conversationId := "c1"
    parentMessageId := none
    isCreatedByUser := false
    text := some "y"
    content := none
    createdAt := some 2 }

/-- C3: the claim fails on the code — with `maxStorageSize = 0` and an
estimated usage of 500 bytes, `storeMessage` does not fail with
`QuotaExceededError` (its result type has no error channel at all): the write
proceeds and the new message is stored. -/
theorem storeMessage_ignores_quota_cx :
    ((getSettingsVal dbQuota).maxStorageSize = some 0) ∧
    ((getStorageStats dbQuota).2.2 = 500) ∧
    ((storeMessage idAES none 5 [] dbQuota msgOverQuota).messages.length = 2) ∧
    ((storeMessage idAES none 5 [] dbQuota msgOverQuota).messages.any
        (fun m => decide (m.messageId = "m2")) = true) := by
  exact ⟨by decide, by decide, by decide, by decide⟩

/-- C3 (amended): `storeMessage` performs no quota check: whatever the
configured `maxStorageSize` and the current usage, the call never fails
(it is a total function into `DB`) and the message is written — a record
with the message's id is in the `messages` store afterwards. -/
theorem storeMessage_always_writes (A : AESCipher) (key : Option String)
    (now : Nat) (iv : List Nat) (db : DB) (message : TMessage) :
    ∃ x ∈ (storeMessage A key now iv db message).messages,
      x.messageId = message.messageId := by
  refine ⟨storedMsgRecord A key now iv (getSettingsVal db) message, ?_, ?_⟩
  · exact mem_idbPut_self _ _ _
  · exact storedMsgRecord_messageId A key now iv (getSettingsVal db) message

/-- C6: `deleteConversation` removes the conversation and, in the same
transaction, every message whose `conversationId` matches: afterwards
`listMessagesByConversation` of that id is the empty sequence and no stored
conversation carries the deleted id. -/
theorem deleteConversation_cascades (A : AESCipher) (key : Option String)
    (db : DB) (conversationId : String) :
    getMessagesByConversationId A key (deleteConversation db conversationId)
        conversationId = [] ∧
    ∀ c ∈ (deleteConversation db conversationId).conversations,
      c.conversationId ≠ conversationId := by
  constructor
  · have hfil : ∀ l : List StoredMessage,
        (l.filter (fun m => decide (¬ m.conversationId = conversationId))).filter
          (fun m => decide (m.conversationId = conversationId)) = [] := by
      intro l
      induction l with
      | nil => rfl
      | cons x xs ih =>
          by_cases hx : x.conversationId = conversationId
          · simp only [List.filter]
            rw [show (decide (¬ x.conversationId = conversationId)) = false by simp [hx]]
            exact ih
          · simp only [List.filter]
            rw [show (decide (¬ x.conversationId = conversationId)) = true by simp [hx]]
            simp only [List.filter]
            rw [show (decide (x.conversationId = conversationId)) = false by simp [hx]]
            exact ih
    have hmsgs : (deleteConversation db conversationId).messages
        = db.messages.filter (fun m => decide (¬ m.conversationId = conversationId)) := rfl
    unfold getMessagesByConversationId
    rw [hmsgs, hfil db.messages]
    rfl
  · intro c hc
    have hconvs : (deleteConversation db conversationId).conversations
        = db.conversations.filter
            (fun c => decide (¬ c.conversationId = conversationId)) := rfl
    rw [hconvs] at hc
    have := (List.mem_filter.mp hc).2
    simpa using this

/-- Scenario A conversation. -/
def scenarioConvA : TConversation :=
  { conversationId := "c1"
    title := some "Hello"
    promptPrefix := none
    createdAt := 0
    updatedAt := none }

/-- Scenario A first message (created at T1 = 1). -/
def scenarioMsg1 : TMessage :=
  { messageId := "m1"
    conversationId := "c1"
    parentMessageId := none
    isCreatedByUser := true
    text := some "hi"
    content := none
    createdAt := some 1 }

/-- Scenario A second message (created at T2 = 2 > T1). -/
def scenarioMsg2 : TMessage :=
  { messageId := "m2"
    conversationId := "c1"
    parentMessageId := none
    isCreatedByUser := false
    text := some "there"
    content := none
    createdAt := some 2 }

/-- The database after running spec §8 Scenario A against the facade. -/
def scenarioDbA : DB :=
  storeMessage idAES none 2 []
    (storeMessage idAES none 1 []
      (storeConversation idAES none 0 [] emptyDB scenarioConvA) scenarioMsg1)
    scenarioMsg2

/-- C9: `listMessagesByConversation` returns the conversation's messages
sorted ascending by `createdAt`; the returned ids are a permutation of the
ids of exactly the stored messages of that conversation; and in Scenario A
the result is `[m1, m2]` in that order. -/
theorem getMessagesByConversationId_sorted (A : AESCipher) (key : Option String)
    (db : DB) (conversationId : String) :
    ((getMessagesByConversationId A key db conversationId).Pairwise
      (fun a b => a.createdAt ≤ b.createdAt)) ∧
    (((getMessagesByConversationId A key db conversationId).map
        (fun m => m.messageId)).Perm
      ((db.messages.filter (fun m => decide (m.conversationId = conversationId))).map
        (fun m => m.messageId))) ∧
    ((getMessagesByConversationId idAES none scenarioDbA "c1").map
        (fun m => m.messageId) = ["m1", "m2"]) := by
  refine ⟨?_, ?_, by decide⟩
  · have h := pairwise_sortWith
      (fun a b : StoredMessage => decide (a.createdAt ≤ b.createdAt))
      (fun a b => by
        rcases Nat.le_total a.createdAt b.createdAt with h | h
        · exact Or.inl (decide_eq_true h)
        · exact Or.inr (decide_eq_true h))
      (fun a b c hab hbc =>
        decide_eq_true (Nat.le_trans (of_decide_eq_true hab) (of_decide_eq_true hbc)))
      (((sortWith (fun a b : StoredMessage => strLe a.messageId b.messageId)
          (db.messages.filter (fun m => decide (m.conversationId = conversationId)))).map
        (decryptStoredMessage A key)))
    exact List.Pairwise.imp (fun hd => of_decide_eq_true hd) h
  · have p1 := sortWith_perm
      (fun a b : StoredMessage => decide (a.createdAt ≤ b.createdAt))
      (((sortWith (fun a b : StoredMessage => strLe a.messageId b.messageId)
          (db.messages.filter (fun m => decide (m.conversationId = conversationId)))).map
        (decryptStoredMessage A key)))
    have p2 := sortWith_perm
      (fun a b : StoredMessage => strLe a.messageId b.messageId)
      (db.messages.filter (fun m => decide (m.conversationId = conversationId)))
    have q1 := (p1.map (fun m : StoredMessage => m.messageId))
    have q2 := (p2.map (fun m : StoredMessage => m.messageId))
    have hmapmap : ((sortWith (fun a b : StoredMessage => strLe a.messageId b.messageId)
          (db.messages.filter (fun m => decide (m.conversationId = conversationId)))).map
        (decryptStoredMessage A key)).map (fun m => m.messageId)
        = (sortWith (fun a b : StoredMessage => strLe a.messageId b.messageId)
          (db.messages.filter (fun m => decide (m.conversationId = conversationId)))).map
            (fun m => m.messageId) := by
      rw [List.map_map]
      exact List.map_congr_left (fun x _ => decryptStoredMessage_messageId A key x)
    have := q1.trans (hmapmap ▸ q2)
    exact this

/-- C10: whenever `initializeEncryption` completes (fault-free), the
persisted settings have `encryptionEnabled = true`; and when the stored
settings said encryption was disabled, it records the hash of the freshly
generated random key and loads that key into memory. -/
theorem initializeEncryption_flag_on (sha : String → String) (randKey : String)
    (storedLSKey : Option String) (db : DB) :
    ((getSettingsVal (initializeEncryption sha randKey storedLSKey db).1).encryptionEnabled
      = true) ∧
    ((getSettingsVal db).encryptionEnabled = false →
      (getSettingsVal (initializeEncryption sha randKey storedLSKey db).1).masterKeyHash
        = some (sha randKey) ∧
      (initializeEncryption sha randKey storedLSKey db).2 = some randKey) := by
  unfold initializeEncryption
  by_cases hf : (getSettingsVal db).encryptionEnabled = false
  · rw [if_pos hf]
    exact ⟨rfl, fun _ => ⟨rfl, rfl⟩⟩
  · rw [if_neg hf]
    have hft : (getSettingsVal db).encryptionEnabled = true := by
      cases h : (getSettingsVal db).encryptionEnabled
      · exact absurd h hf
      · rfl
    refine ⟨?_, fun h => absurd h hf⟩
    split
    · split
      · split
        · exact hft
        · exact hft
      · exact hft
    · exact hft

end ClientStorage

deriving instance DecidableEq for Except

namespace ClientStorage

/-- Sensitive payload used by the concrete C2 evaluation. -/
def cxPayload : ConvSensitive := { promptPrefix := none, title := some "secret" }

/-- The blob `encrypt` produces for `cxPayload` under the degenerate cipher,
key `"k"` and IV `[0]`. -/
def cxBlob : EncryptedData :=
  { data := idAES.enc "k" [0] (encodeConvPayload cxPayload)
    iv := [0]
    timestamp := 0 }

/-- C2 (counterexample): for a concrete encryptable payload, flipping
ciphertext byte 0 of its encrypted blob makes `decrypt` fail with the generic
`malformedData` parse error — not the distinct `IntegrityError` the claim
requires (no checksum is stored or verified anywhere in the blob). -/
theorem decrypt_flip_no_integrityError_cx :
    (encryptPayload idAES (some "k") [0] 0 (encodeConvPayload cxPayload)
      = .ok cxBlob) ∧
    (decryptConvPayload idAES (some "k") cxBlob = .ok cxPayload) ∧
    (decryptConvPayload idAES (some "k")
        { cxBlob with data := flipByteAt 0 cxBlob.data }
      = .error .malformedData) ∧
    (StorageError.malformedData ≠ StorageError.integrityError) := by
  exact ⟨by decide, by decide, by decide, by decide⟩

/-- C2 (amended): `decrypt(encrypt(X)) = X` holds for every sensitive-field
payload encryptable under the active key (given the AES contract); but
decrypt never fails with an `IntegrityError` on any blob whatsoever —
`EncryptedData` carries no checksum and `decrypt` verifies none, so tampering
surfaces at most as a generic parse error. -/
theorem encrypt_decrypt_roundtrip_no_integrity (A : AESCipher) (k : String)
    (iv : List Nat) (now : Nat) (X : ConvSensitive) (hA : AESInverts A) :
    (∃ e, encryptPayload A (some k) iv now (encodeConvPayload X) = .ok e ∧
          decryptConvPayload A (some k) e = .ok X) ∧
    (∀ key e2, decryptConvPayload A key e2 ≠ .error .integrityError) := by
  constructor
  · refine ⟨{ data := A.enc k iv (encodeConvPayload X), iv := iv, timestamp := now },
      rfl, ?_⟩
    have hstep : decryptConvPayload A (some k)
        { data := A.enc k iv (encodeConvPayload X), iv := iv, timestamp := now }
        = (match decodeConvPayload (A.dec k iv (A.enc k iv (encodeConvPayload X))) with
          | some v => Except.ok v
          | none => Except.error StorageError.malformedData) := rfl
    rw [hstep, hA k iv (encodeConvPayload X), decodeConvPayload_encodeConvPayload]
  · intro key e2
    cases key with
    | none => exact fun h => StorageError.noConfusion (Except.error.inj h)
    | some k2 =>
        show (match decodeConvPayload (A.dec k2 e2.iv e2.data) with
              | some v => Except.ok v
              | none => Except.error StorageError.malformedData)
            ≠ Except.error StorageError.integrityError
        cases decodeConvPayload (A.dec k2 e2.iv e2.data) with
        | some v => exact fun h => Except.noConfusion h
        | none => exact fun h => StorageError.noConfusion (Except.error.inj h)

/-- Witness for the amended C2 theorem: evaluated at the degenerate cipher,
key `"k"`, IV `[0]` and the concrete payload. -/
theorem encrypt_decrypt_roundtrip_no_integrity_witness :
    (∃ e, encryptPayload idAES (some "k") [0] 0 (encodeConvPayload cxPayload)
        = .ok e ∧
      decryptConvPayload idAES (some "k") e = .ok cxPayload) ∧
    (∀ key e2, decryptConvPayload idAES key e2 ≠ .error .integrityError) :=
  encrypt_decrypt_roundtrip_no_integrity idAES "k" [0] 0 cxPayload
    (fun _ _ _ => rfl)

/-- Conversation store call that rejects the record with id `"bad"`
(modelling the underlying engine rejecting one record) and otherwise performs
the real store. -/
def failingStoreConv : DB → StoredConversation → Except StorageError DB :=
  fun db c =>
    if c.conversationId = "bad" then .error .engineFailure
    else .ok (storeConversation idAES none 0 [] db (toTConversation c))

/-- Fault-free message store wrapped in `Except`. -/
def okStoreMsg : DB → StoredMessage → Except StorageError DB :=
  fun db m => .ok (storeMessage idAES none 0 [] db (toTMessage m))

/-- Snapshot whose first conversation record fails to import while the second
would succeed. -/
def snapBadGood : Snapshot :=
  { conversations := [exConv "bad" 1, exConv "good" 2]
    messages := []
    settings := none
    exportDate := 0 }

/-- C4 (counterexample): importing a snapshot whose first record fails does
not continue past the failure and reports no `{imported, failed}` counts:
the whole import aborts with the rethrown error, so the following good
record is never imported. -/
theorem importData_aborts_cx :
    importData failingStoreConv okStoreMsg emptyDB snapBadGood
      = .error .engineFailure := by
  decide

theorem foldlM_error_head {α : Type} (f : DB → α → Except StorageError DB)
    (db : DB) (a : α) (l : List α) (e : StorageError)
    (h : f db a = .error e) :
    (a :: l).foldlM f db = .error e := by
  rw [List.foldlM_cons, h]
  rfl

/-- C4 (amended): `importData` aborts on the first record the underlying
store rejects: the record's error is rethrown as the result of the whole
call, no later record is processed, and no imported/failed counts are
returned (the result type carries none). -/
theorem importData_aborts_on_failure
    (storeC : DB → StoredConversation → Except StorageError DB)
    (storeM : DB → StoredMessage → Except StorageError DB)
    (db : DB) (c : StoredConversation) (cs : List StoredConversation)
    (ms : List StoredMessage) (st : Option StorageSettings) (d : Nat)
    (e : StorageError) (h : storeC db c = .error e) :
    importData storeC storeM db
      { conversations := c :: cs, messages := ms, settings := st, exportDate := d }
      = .error e := by
  simp only [importData]
  rw [foldlM_error_head storeC db c cs e h]
  rfl

/-- Witness for the amended C4 theorem: the concrete failing store call at a
one-record snapshot. -/
theorem importData_aborts_on_failure_witness :
    importData failingStoreConv okStoreMsg emptyDB
      { conversations := [exConv "bad" 1], messages := [], settings := none,
        exportDate := 0 }
      = .error .engineFailure :=
  importData_aborts_on_failure failingStoreConv okStoreMsg emptyDB
    (exConv "bad" 1) [] [] none 0 StorageError.engineFailure (by decide)

end ClientStorage

namespace ClientStorage

/-- Conversation stored for the C5 counterexample. -/
def convExportOne : TConversation :=
  { conversationId := "c1"
    title := some "T"
    promptPrefix := none
    createdAt := 1
    updatedAt := some 10 }

/-- Database of the C5 counterexample: one conversation stored at time 1
(encryption off, default settings). -/
def dbExportOne : DB := storeConversation idAES none 1 [] emptyDB convExportOne

/-- C5 (counterexample): re-importing the export of `dbExportOne` at time 2
keeps the record count but rewrites record content: `lastAccessed` of the
stored conversation record changes from 1 (the original store time) to 2
(the import time), so the second pass is not change-free. -/
theorem importData_export_changes_content_cx :
    ((importDataPure idAES none 2 [] dbExportOne
        (exportData idAES none dbExportOne 1)).conversations.length
      = dbExportOne.conversations.length) ∧
    ((importDataPure idAES none 2 [] dbExportOne
        (exportData idAES none dbExportOne 1)).conversations
      ≠ dbExportOne.conversations) ∧
    (dbExportOne.conversations.map (fun c => c.lastAccessed) = [1]) ∧
    ((importDataPure idAES none 2 [] dbExportOne
        (exportData idAES none dbExportOne 1)).conversations.map
          (fun c => c.lastAccessed) = [2]) := by
  exact ⟨by decide, by decide, by decide, by decide⟩

/-- C5 (amended): `importAll(exportAll())` preserves the record counts — the
importer upserts by id and every exported record's id is already present, so
no duplicates are created — though record content is not left unchanged
(`lastAccessed` is reset to the import time, and with encryption on the
bundles are re-encrypted under fresh IVs). -/
theorem importData_export_preserves_counts (A : AESCipher) (key : Option String)
    (db : DB) (t1 t2 : Nat) (iv : List Nat) :
    (importDataPure A key t2 iv db (exportData A key db t1)).conversations.length
      = db.conversations.length ∧
    (importDataPure A key t2 iv db (exportData A key db t1)).messages.length
      = db.messages.length := by
  have hconvsub : ∀ c ∈ (exportData A key db t1).conversations,
      ∃ x ∈ db.conversations, x.conversationId = c.conversationId := by
    intro c hc
    obtain ⟨x, hx, he⟩ := getConversations_subset A key db
      { cursor := none, limit := 10000, sortBy := .updatedAt, sortOrder := .desc } c hc
    exact ⟨x, hx, he.symm⟩
  have hmsgsub : ∀ m ∈ (exportData A key db t1).messages,
      ∃ x ∈ db.messages, x.messageId = m.messageId := by
    intro m hm
    have hm2 : m ∈ ((getConversations A key db
        { cursor := none, limit := 10000, sortBy := .updatedAt,
          sortOrder := .desc }).1).flatMap
        (fun conversation =>
          getMessagesByConversationId A key db conversation.conversationId) := hm
    obtain ⟨conv, hconv, hmem⟩ := List.mem_flatMap.mp hm2
    obtain ⟨x, hx, he⟩ := getMessagesByConversationId_subset A key db
      conv.conversationId m hmem
    exact ⟨x, hx, he.symm⟩
  obtain ⟨lc, pc, mc, sc⟩ := importConvs_preserves A key t2 iv
    (exportData A key db t1).conversations db hconvsub
  have hmsgs1 : ∀ m ∈ (exportData A key db t1).messages,
      ∃ x ∈ (importConvs A key t2 iv db
        (exportData A key db t1).conversations).messages,
        x.messageId = m.messageId := by
    intro m hm
    rw [mc]
    exact hmsgsub m hm
  obtain ⟨lm, pm, cm, sm⟩ := importMsgs_preserves A key t2 iv
    (exportData A key db t1).messages
    (importConvs A key t2 iv db (exportData A key db t1).conversations) hmsgs1
  have hpure : importDataPure A key t2 iv db (exportData A key db t1)
      = updateSettings
          (importMsgs A key t2 iv
            (importConvs A key t2 iv db (exportData A key db t1).conversations)
            (exportData A key db t1).messages)
          (getSettingsVal db) := rfl
  constructor
  · have e1 : (importDataPure A key t2 iv db (exportData A key db t1)).conversations
        = (importMsgs A key t2 iv
            (importConvs A key t2 iv db (exportData A key db t1).conversations)
            (exportData A key db t1).messages).conversations := by
      rw [hpure]
      rfl
    rw [e1, cm]
    exact lc
  · have e2 : (importDataPure A key t2 iv db (exportData A key db t1)).messages
        = (importMsgs A key t2 iv
            (importConvs A key t2 iv db (exportData A key db t1).conversations)
            (exportData A key db t1).messages).messages := by
      rw [hpure]
      rfl
    rw [e2, lm, mc]

end ClientStorage

namespace ClientStorage

/-- Settings with the encryption flag on but no recorded key hash — the
state `initializeEncryption` leaves untouched with a `null` in-memory key
(its `else if (settings.masterKeyHash)` guard matches neither branch). -/
def settingsFlagOnly : StorageSettings :=
  { encryptionEnabled := true
    backupEnabled := true
    masterKeyHash := none
    lastBackup := none
    maxStorageSize := none }

/-- Database persisting `settingsFlagOnly`. -/
def dbFlagOnly : DB :=
  { conversations := [], messages := [], settings := some settingsFlagOnly }

/-- The conversation of spec §8 Scenario B. -/
def convSecret : TConversation :=
  { conversationId := "c1"
    title := some "secret"
    promptPrefix := none
    createdAt := 0
    updatedAt := none }

/-- C7 (counterexample): with the encryption flag on but no in-memory key —
a state that `initializeEncryption` itself reproduces (it returns the store
unchanged with key `none` when the flag is on and no hash is recorded) —
`storeConversation` writes the literal plaintext `"secret"` into the raw
stored record, so the claim does not hold for every store while the flag is
on. -/
theorem storeConversation_plaintext_without_key_cx :
    (initializeEncryption (fun s => s) "rk" none dbFlagOnly = (dbFlagOnly, none)) ∧
    ((getSettingsVal dbFlagOnly).encryptionEnabled = true) ∧
    ((storeConversation idAES none 5 [] dbFlagOnly convSecret).conversations.map
        (fun c => c.title) = [some "secret"]) := by
  exact ⟨by decide, by decide, by decide⟩

/-- The encrypted bundle `storeConversation` attaches for a conversation
under cipher `A`, key `k` and IV `iv` at time `now`. -/
def convEncBlob (A : AESCipher) (k : String) (iv : List Nat) (now : Nat)
    (conversation : TConversation) : EncryptedData :=
  { data := A.enc k iv (encodeConvPayload
      { promptPrefix := conversation.promptPrefix, title := conversation.title })
    iv := iv
    timestamp := now }

/-- The record `storeConversation` persists when encryption is active: the
sensitive fields erased, the bundle attached. -/
def encryptedStoredConv (A : AESCipher) (k : String) (iv : List Nat) (now : Nat)
    (conversation : TConversation) : StoredConversation :=
  { conversationId := conversation.conversationId
    title := none
    promptPrefix := none
    createdAt := conversation.createdAt
    updatedAt := conversation.updatedAt.getD now
    lastAccessed := now
    syncStatus := .localTag
    encryptedData := some (convEncBlob A k iv now conversation)
    encryptedAt := some now }

theorem decryptStoredConv_ok (A : AESCipher) (k : String) (s : StoredConversation)
    (e : EncryptedData) (d : ConvSensitive)
    (he : s.encryptedData = some e)
    (hd : decryptConvPayload A (some k) e = .ok d) :
    decryptStoredConv A (some k) s
      = { s with
          title := d.title
          promptPrefix := d.promptPrefix
          encryptedData := none
          encryptedAt := none } := by
  simp [decryptStoredConv, he, hd]

/-- C7 (amended): when the settings flag is on and the in-memory encryption
key is loaded, the raw stored record holds no plaintext sensitive field —
every stored record under the conversation's id has `title` and
`promptPrefix` erased and an encrypted bundle attached — and
`getConversation` returns the original plaintext after decryption. -/
theorem storeConversation_encrypts_with_key (A : AESCipher) (k : String)
    (now t2 : Nat) (iv : List Nat) (db : DB) (conversation : TConversation)
    (hA : AESInverts A)
    (hflag : (getSettingsVal db).encryptionEnabled = true) :
    (∀ r ∈ (storeConversation A (some k) now iv db conversation).conversations,
      r.conversationId = conversation.conversationId →
        r.title = none ∧ r.promptPrefix = none ∧ r.encryptedData ≠ none) ∧
    (∃ out, (getConversation A (some k) t2
        (storeConversation A (some k) now iv db conversation)
        conversation.conversationId).1 = some out ∧
      out.title = conversation.title ∧
      out.promptPrefix = conversation.promptPrefix) := by
  have hstored : storedConvRecord A (some k) now iv (getSettingsVal db) conversation
      = encryptedStoredConv A k iv now conversation := by
    unfold storedConvRecord encryptedStoredConv convEncBlob
    rw [if_pos hflag]
    rfl
  have hid := storedConvRecord_conversationId A (some k) now iv (getSettingsVal db)
    conversation
  have hconvs : (storeConversation A (some k) now iv db conversation).conversations
      = idbPut (fun c => c.conversationId)
          (storedConvRecord A (some k) now iv (getSettingsVal db) conversation)
          db.conversations := rfl
  constructor
  · intro r hr hrid
    rw [hconvs] at hr
    have hkey : (fun c : StoredConversation => c.conversationId) r
        = (fun c : StoredConversation => c.conversationId)
            (storedConvRecord A (some k) now iv (getSettingsVal db) conversation) := by
      show r.conversationId
        = (storedConvRecord A (some k) now iv (getSettingsVal db)
            conversation).conversationId
      rw [hid]
      exact hrid
    have hr2 := idbPut_unique_key (fun c => c.conversationId)
      (storedConvRecord A (some k) now iv (getSettingsVal db) conversation)
      db.conversations r hr hkey
    rw [hr2, hstored]
    refine ⟨rfl, rfl, ?_⟩
    intro hcontra
    exact Option.noConfusion hcontra
  · have hok : decryptConvPayload A (some k) (convEncBlob A k iv now conversation)
        = .ok { promptPrefix := conversation.promptPrefix,
                title := conversation.title } := by
      have hstep : decryptConvPayload A (some k) (convEncBlob A k iv now conversation)
          = (match decodeConvPayload (A.dec k iv (A.enc k iv (encodeConvPayload
              { promptPrefix := conversation.promptPrefix,
                title := conversation.title }))) with
            | some v => Except.ok v
            | none => Except.error StorageError.malformedData) := rfl
      rw [hstep, hA k iv _, decodeConvPayload_encodeConvPayload]
    have hfind : (storeConversation A (some k) now iv db conversation).conversations.find?
        (fun c => decide (c.conversationId = conversation.conversationId))
        = some (storedConvRecord A (some k) now iv (getSettingsVal db) conversation) := by
      have h0 := find?_idbPut (fun c : StoredConversation => c.conversationId)
        (storedConvRecord A (some k) now iv (getSettingsVal db) conversation)
        db.conversations
      rw [hconvs]
      simpa [hid] using h0
    unfold getConversation
    rw [hfind]
    refine ⟨decryptStoredConv A (some k)
        { storedConvRecord A (some k) now iv (getSettingsVal db) conversation with
            lastAccessed := t2 }, rfl, ?_, ?_⟩
    · rw [hstored]
      rw [decryptStoredConv_ok A k
        { encryptedStoredConv A k iv now conversation with lastAccessed := t2 }
        (convEncBlob A k iv now conversation)
        { promptPrefix := conversation.promptPrefix, title := conversation.title }
        rfl hok]
    · rw [hstored]
      rw [decryptStoredConv_ok A k
        { encryptedStoredConv A k iv now conversation with lastAccessed := t2 }
        (convEncBlob A k iv now conversation)
        { promptPrefix := conversation.promptPrefix, title := conversation.title }
        rfl hok]

/-- Witness for the amended C7 theorem: the degenerate cipher, key `"kk"`,
the flag-on database and Scenario B's conversation. -/
theorem storeConversation_encrypts_with_key_witness :
    (∀ r ∈ (storeConversation idAES (some "kk") 5 [7] dbFlagOnly convSecret).conversations,
      r.conversationId = convSecret.conversationId →
        r.title = none ∧ r.promptPrefix = none ∧ r.encryptedData ≠ none) ∧
    (∃ out, (getConversation idAES (some "kk") 6
        (storeConversation idAES (some "kk") 5 [7] dbFlagOnly convSecret)
        convSecret.conversationId).1 = some out ∧
      out.title = convSecret.title ∧
      out.promptPrefix = convSecret.promptPrefix) :=
  storeConversation_encrypts_with_key idAES "kk" 5 6 [7] dbFlagOnly convSecret
    (fun _ _ _ => rfl) (by decide)

end ClientStorage

namespace ClientStorage

/-- C8: a decrypt failure inside `getMessagesByConversationId` is caught per
record: with `m1`'s stored ciphertext undecryptable and `m2` intact, the
listing still returns exactly both records — `m2` as stored and `m1`
unchanged, still carrying its encrypted bundle (the marker that it was not
decrypted) — and the function returns normally instead of aborting. -/
theorem getMessages_per_record_failure (A : AESCipher) (k : String) (db : DB)
    (cid : String) (m1s m2s : StoredMessage) (e1 : EncryptedData)
    (hdb : db.messages = [m1s, m2s])
    (h1 : m1s.conversationId = cid) (h2 : m2s.conversationId = cid)
    (he : m1s.encryptedData = some e1)
    (hfail : decodeMsgPayload (A.dec k e1.iv e1.data) = none)
    (hm2 : m2s.encryptedData = none) :
    m1s ∈ getMessagesByConversationId A (some k) db cid ∧
    m2s ∈ getMessagesByConversationId A (some k) db cid ∧
    (getMessagesByConversationId A (some k) db cid).length = 2 := by
  have hd1 : decryptStoredMessage A (some k) m1s = m1s := by
    simp [decryptStoredMessage, he, decryptMsgPayload, hfail]
  have hd2 : decryptStoredMessage A (some k) m2s = m2s := by
    simp [decryptStoredMessage, hm2]
  have hfil : db.messages.filter (fun m => decide (m.conversationId = cid))
      = [m1s, m2s] := by
    rw [hdb]
    simp [List.filter, h1, h2]
  have hperm : (getMessagesByConversationId A (some k) db cid).Perm [m1s, m2s] := by
    unfold getMessagesByConversationId
    rw [hfil]
    have p2 := sortWith_perm
      (fun a b : StoredMessage => strLe a.messageId b.messageId) [m1s, m2s]
    have p2m := p2.map (decryptStoredMessage A (some k))
    have p3 : [m1s, m2s].map (decryptStoredMessage A (some k)) = [m1s, m2s] := by
      simp [hd1, hd2]
    rw [p3] at p2m
    have p1 := sortWith_perm
      (fun a b : StoredMessage => decide (a.createdAt ≤ b.createdAt))
      ((sortWith (fun a b : StoredMessage => strLe a.messageId b.messageId)
        [m1s, m2s]).map (decryptStoredMessage A (some k)))
    exact p1.trans p2m
  refine ⟨hperm.mem_iff.mpr (by simp), hperm.mem_iff.mpr (by simp), ?_⟩
  rw [hperm.length_eq]
  rfl

/-- An undecryptable bundle (empty ciphertext fails the parse). -/
def corruptBlob : EncryptedData := { data := [], iv := [], timestamp := 0 }

/-- Stored message whose ciphertext is corrupted. -/
def msgCorrupt : StoredMessage :=
  { messageId := "m1"
    conversationId := "c1"
    parentMessageId := none
    isCreatedByUser := true
    text := none
    content := none
    createdAt := 1
    syncStatus := .localTag
    encryptedData := some corruptBlob
    encryptedAt := some 0 }

/-- Intact plaintext stored message in the same conversation. -/
def msgPlain : StoredMessage :=
  { messageId := "m2"
    conversationId := "c1"
    parentMessageId := none
    isCreatedByUser := false
    text := some "there"
    content := none
    createdAt := 2
    syncStatus := .localTag
    encryptedData := none
    encryptedAt := none }

/-- Database of the C8 witness. -/
def dbCorrupt : DB :=
  { conversations := [], messages := [msgCorrupt, msgPlain], settings := none }

/-- Witness for the C8 theorem at a concrete corrupted record. -/
theorem getMessages_per_record_failure_witness :
    msgCorrupt ∈ getMessagesByConversationId idAES (some "kk") dbCorrupt "c1" ∧
    msgPlain ∈ getMessagesByConversationId idAES (some "kk") dbCorrupt "c1" ∧
    (getMessagesByConversationId idAES (some "kk") dbCorrupt "c1").length = 2 :=
  getMessages_per_record_failure idAES "kk" dbCorrupt "c1" msgCorrupt msgPlain
    corruptBlob rfl rfl rfl rfl (by decide) rfl

end ClientStorage
